import Mathlib

/-!
Verification of the RLN admission core: the field helpers in
`scripts/rln_math.py` and the ledger adjudication section of
`scripts/mini_api_server.py`, embedded shallowly.  Python integers are
modelled by `ℤ`/`ℕ`; Python `%` on a positive modulus agrees with
`Int.emod`; Python `pow(b, e, m)` is `b ^ e % m`; exceptions are
modelled by `Except String`.
-/

set_option maxRecDepth 20000

namespace RLN

/-- `CAIRO_FIELD_PRIME = (1 << 251) + (17 << 192) + 1` from `rln_math.py`. -/
def P : ℕ := 2 ^ 251 + 17 * 2 ^ 192 + 1

/-- `to_felt`: normalize an integer into the Cairo field (`n % CAIRO_FIELD_PRIME`).
The string-literal parsing branch (`int(str(value), 0)`) is elided: inputs are
modelled after integer decoding. -/
def to_felt (v : ℤ) : ℕ := (v % (P : ℤ)).toNat

/-- Hex digit character, as produced by Python `hex`. -/
def hexChar (n : ℕ) : Char :=
  if n < 10 then Char.ofNat (48 + n) else Char.ofNat (87 + n)

/-- Hex digits of `n` (most significant first), with explicit fuel. -/
def hexDigits : ℕ → ℕ → List Char
  | 0, _ => []
  | fuel + 1, n => if n = 0 then [] else hexDigits fuel (n / 16) ++ [hexChar (n % 16)]

/-- Lowercase hex rendering of a natural number, as Python `hex` minus the `0x`. -/
def natToHex (n : ℕ) : String :=
  if n = 0 then "0" else String.mk (hexDigits 256 n)

/-- `to_felt_hex`: canonical hex felt representation, Python `hex(to_felt(value))`. -/
def to_felt_hex (v : ℤ) : String := "0x" ++ natToHex (to_felt v)

/-- `field_inv`: modular inverse in the Cairo base field via `pow(n, P - 2, P)`;
raises for zero. -/
def field_inv (v : ℤ) : Except String ℕ :=
  let n := to_felt v
  if n = 0 then .error "inverse does not exist for 0 in field"
  else .ok (n ^ (P - 2) % P)

/-- `recover_identity_secret` from `rln_math.py`: recover `a0` from two shares. -/
def recover_identity_secret (x1 y1 x2 y2 : ℤ) : Except String ℕ :=
  let x1' := to_felt x1
  let y1' := to_felt y1
  let x2' := to_felt x2
  let y2' := to_felt y2
  if x1' = x2' then
    .error "x1 and x2 are equal; a0 recovery requires two distinct messages"
  else
    let num := to_felt ((y1' : ℤ) * (x2' : ℤ) - (y2' : ℤ) * (x1' : ℤ))
    match field_inv ((x2' : ℤ) - (x1' : ℤ)) with
    | .error e => .error e
    | .ok den => .ok (num * den % P)

/-- `derive_a1` from `rln_math.py`: recover `a1` from one share (nonzero `x`). -/
def derive_a1 (a0 x y : ℤ) : Except String ℕ :=
  let x' := to_felt x
  if x' = 0 then .error "cannot derive a1 when x == 0"
  else
    let a0' := to_felt a0
    let y' := to_felt y
    match field_inv (x' : ℤ) with
    | .error e => .error e
    | .ok inv => .ok ((((y' : ℤ) - (a0' : ℤ)) * (inv : ℤ) % (P : ℤ)).toNat)

/-- `rln_math.Share`: a parsed share, all fields normalized into the field. -/
structure Share where
  nullifier : ℕ
  ticket_index : ℕ
  x : ℕ
  y : ℕ
deriving DecidableEq

/-- An untrusted request body: JSON keys with integer-decoded payloads. -/
abbrev RawDict := List (String × ℤ)

/-- First-match association lookup, modelling Python dict access. -/
def lookupKey : RawDict → String → Option ℤ
  | [], _ => none
  | (k, v) :: rest, key => if k = key then some v else lookupKey rest key

/-- Python `k in raw`. -/
def hasKey (raw : RawDict) (k : String) : Bool := (lookupKey raw k).isSome

/-- `required = ["nullifier", "ticket_index", "x", "y"]` from `parse_share`. -/
def requiredKeys : List String := ["nullifier", "ticket_index", "x", "y"]

/-- `missing = [k for k in required if k not in raw]` from `parse_share`. -/
def missingKeys (raw : RawDict) : List String :=
  requiredKeys.filter fun k => ! hasKey raw k

/-- `parse_share` from `rln_math.py`. -/
def parse_share (raw : RawDict) : Except String Share :=
  let missing := missingKeys raw
  if missing = [] then
    .ok { nullifier := to_felt ((lookupKey raw "nullifier").getD 0)
        , ticket_index := to_felt ((lookupKey raw "ticket_index").getD 0)
        , x := to_felt ((lookupKey raw "x").getD 0)
        , y := to_felt ((lookupKey raw "y").getD 0) }
  else
    .error ("missing share keys: " ++ String.intercalate ", " missing)

/-- A ledger entry `(ticket_index, x, y)` as stored in `ServerState.spent`. -/
abbrev Entry := ℕ × ℕ × ℕ

/-- The nullifier ledger `ServerState.spent`: a hex-keyed map. -/
abbrev Ledger := String → Option Entry

/-- The initial empty ledger (`ServerState.__init__`). -/
def emptyLedger : Ledger := fun _ => none

/-- The slashing evidence JSON assembled by `slash_payload` in `mini_api_server.py`
(the constant `"slash": True` field is elided). -/
structure SlashPayload where
  nullifier : String
  ticket_index : String
  recovered_identity_secret : String
  shares : List (String × String)
deriving DecidableEq

/-- `slash_payload(share1, share2)`: recovery runs on
`(share1.x, share1.y, share2.x, share2.y)` and the shares list renders
`share1` then `share2`. -/
def slash_payload (share1 share2 : Share) : Except String SlashPayload :=
  match recover_identity_secret (share1.x : ℤ) (share1.y : ℤ) (share2.x : ℤ) (share2.y : ℤ) with
  | .error e => .error e
  | .ok identity_secret =>
    .ok { nullifier := to_felt_hex (share1.nullifier : ℤ)
        , ticket_index := to_felt_hex (share1.ticket_index : ℤ)
        , recovered_identity_secret := to_felt_hex (identity_secret : ℤ)
        , shares := [(to_felt_hex (share1.x : ℤ), to_felt_hex (share1.y : ℤ)),
                     (to_felt_hex (share2.x : ℤ), to_felt_hex (share2.y : ℤ))] }

/-- The adjudication outcomes of the ledger section of `do_POST`, named as in the
spec: `Accepted`, `RejectedTicketMismatch`, `ReplaySameShare`,
`RejectedInconsistentShare`, `Slashed`. -/
inductive Outcome where
  | Accepted
  | RejectedTicketMismatch (prev : Entry)
  | ReplaySameShare
  | RejectedInconsistentShare
  | Slashed (payload : SlashPayload)
deriving DecidableEq

/-- The ledger critical section of `do_POST` (`mini_api_server.py` lines 142–187),
as a pure function from ledger and share to outcome and new ledger.  An exception
escaping the section (from `slash_payload`) surfaces as `.error`. -/
def adjudicate (ledger : Ledger) (share : Share) : Except String (Outcome × Ledger) :=
  let key := to_felt_hex (share.nullifier : ℤ)
  match ledger key with
  | none =>
      .ok (.Accepted,
           Function.update ledger key (some (share.ticket_index, share.x, share.y)))
  | some (prev_ticket, prev_x, prev_y) =>
      if prev_ticket ≠ share.ticket_index then
        .ok (.RejectedTicketMismatch (prev_ticket, prev_x, prev_y), ledger)
      else if prev_x = share.x then
        if prev_y = share.y then .ok (.ReplaySameShare, ledger)
        else .ok (.RejectedInconsistentShare, ledger)
      else
        let second_share : Share :=
          { nullifier := share.nullifier, ticket_index := share.ticket_index
          , x := prev_x, y := prev_y }
        match slash_payload share second_share with
        | .error e => .error e
        | .ok payload => .ok (.Slashed payload, ledger)

/-- Responses of `do_POST` on `/submit` relevant to admission (HTTP codes and
payload JSON omitted; each constructor is one `_json` call site). -/
inductive Response where
  | invalidShare (msg : String)
  | missingProof
  | verifyFailed
  | internalError (msg : String)
  | adjudicated (o : Outcome)
deriving DecidableEq

/-- `do_POST` on `/submit` after JSON decoding (`mini_api_server.py` lines
100–187).  `verified` stands for the external `cairo-prove verify` subprocess
result; `hasProof` for the presence of `proof_path`/`proof_b64`; proof-file
staging errors are outside the model. -/
def handle_submit (verified : Bool) (ledger : Ledger) (raw : RawDict)
    (hasProof : Bool) : Response × Ledger :=
  match parse_share raw with
  | .error e => (.invalidShare ("invalid share: " ++ e), ledger)
  | .ok share =>
    if ! hasProof then (.missingProof, ledger)
    else if ! verified then (.verifyFailed, ledger)
    else
      match adjudicate ledger share with
      | .ok (o, l') => (.adjudicated o, l')
      | .error e => (.internalError e, ledger)

/-! ### Proof infrastructure: kernel-reducible modular exponentiation and
primality of `P` (Lucas certificate with witness 3,
`P - 1 = 2 ^ 192 * 5 * 7 * 98714381 * 166848103`). -/

/-- Binary modular exponentiation with explicit fuel; kernel-reducible stand-in
for `b ^ e % m` in concrete certificate checks. -/
def powMod : ℕ → ℕ → ℕ → ℕ → ℕ
  | 0, _, _, m => 1 % m
  | fuel + 1, b, e, m =>
    if e = 0 then 1 % m
    else
      let r := powMod fuel (b * b % m) (e / 2) m
      if e % 2 = 1 then r * b % m else r

theorem powMod_eq : ∀ (fuel b e m : ℕ), e < 2 ^ fuel → powMod fuel b e m = b ^ e % m := by
  intro fuel
  induction fuel with
  | zero =>
    intro b e m he
    have h0 : e = 0 := by simpa using Nat.lt_one_iff.mp (by simpa using he)
    subst h0
    simp [powMod]
  | succ f ih =>
    intro b e m he
    by_cases h0 : e = 0
    · subst h0; simp [powMod]
    · have he2 : e / 2 < 2 ^ f := by
        rw [pow_succ] at he
        omega
      have hr := ih (b * b % m) (e / 2) m he2
      have hpow : (b * b % m) ^ (e / 2) % m = b ^ (2 * (e / 2)) % m := by
        rw [Nat.pow_mod, Nat.mod_mod_of_dvd, ← Nat.pow_mod, pow_mul, sq]
        exact dvd_refl m
      by_cases hpar : e % 2 = 1
      · have heq : 2 * (e / 2) + 1 = e := by omega
        simp only [powMod, if_neg h0, if_pos hpar, hr, hpow]
        rw [Nat.mod_mul_mod, ← pow_succ, heq]
      · have heq : 2 * (e / 2) = e := by omega
        simp only [powMod, if_neg h0, if_neg hpar, hr, hpow, heq]

theorem P_pos : 0 < P := by decide

theorem zmod_pow_powMod (m n k fuel : ℕ) (hk : k < 2 ^ fuel) :
    ((n : ℕ) : ZMod m) ^ k = ((powMod fuel n k m : ℕ) : ZMod m) := by
  rw [powMod_eq fuel n k m hk, ZMod.natCast_mod, Nat.cast_pow]

theorem natCast_ne_one (m v : ℕ) (h : v % m ≠ 1 % m) : ((v : ℕ) : ZMod m) ≠ 1 := by
  intro hv
  apply h
  have h2 : ((v : ℕ) : ZMod m) = ((1 : ℕ) : ZMod m) := by
    rw [hv, Nat.cast_one]
  exact (ZMod.natCast_eq_natCast_iff v 1 m).mp h2

theorem prime_1233929 : Nat.Prime 1233929 := by
  apply lucas_primality 1233929 ((6 : ℕ) : ZMod 1233929)
  · rw [zmod_pow_powMod _ _ _ 21 (by decide)]
    have h1 : powMod 21 6 (1233929 - 1) 1233929 = 1 := by decide
    rw [h1, Nat.cast_one]
  · intro q hq hdvd
    have hf : (1233929 - 1) = 2 ^ 3 * 17 * 43 * 211 := by decide
    rw [hf] at hdvd
    have hcases : q = 2 ∨ q = 17 ∨ q = 43 ∨ q = 211 := by
      rcases (Nat.Prime.dvd_mul hq).mp hdvd with h | h
      · rcases (Nat.Prime.dvd_mul hq).mp h with h | h
        · rcases (Nat.Prime.dvd_mul hq).mp h with h | h
          · exact Or.inl ((Nat.prime_dvd_prime_iff_eq hq (by norm_num)).mp
              (hq.dvd_of_dvd_pow h))
          · exact Or.inr (Or.inl ((Nat.prime_dvd_prime_iff_eq hq (by norm_num)).mp h))
        · exact Or.inr (Or.inr (Or.inl ((Nat.prime_dvd_prime_iff_eq hq (by norm_num)).mp h)))
      · exact Or.inr (Or.inr (Or.inr ((Nat.prime_dvd_prime_iff_eq hq (by norm_num)).mp h)))
    rcases hcases with h | h | h | h <;> subst h <;>
      rw [zmod_pow_powMod _ _ _ 21 (by decide)] <;>
      exact natCast_ne_one _ _ (by decide)

theorem prime_2467859 : Nat.Prime 2467859 := by
  apply lucas_primality 2467859 ((2 : ℕ) : ZMod 2467859)
  · rw [zmod_pow_powMod _ _ _ 22 (by decide)]
    have h1 : powMod 22 2 (2467859 - 1) 2467859 = 1 := by decide
    rw [h1, Nat.cast_one]
  · intro q hq hdvd
    have hf : (2467859 - 1) = 2 * 1233929 := by decide
    rw [hf] at hdvd
    have hcases : q = 2 ∨ q = 1233929 := by
      rcases (Nat.Prime.dvd_mul hq).mp hdvd with h | h
      · exact Or.inl ((Nat.prime_dvd_prime_iff_eq hq (by norm_num)).mp h)
      · exact Or.inr ((Nat.prime_dvd_prime_iff_eq hq prime_1233929).mp h)
    rcases hcases with h | h <;> subst h <;>
      rw [zmod_pow_powMod _ _ _ 22 (by decide)] <;>
      exact natCast_ne_one _ _ (by decide)

theorem prime_4935719 : Nat.Prime 4935719 := by
  apply lucas_primality 4935719 ((17 : ℕ) : ZMod 4935719)
  · rw [zmod_pow_powMod _ _ _ 23 (by decide)]
    have h1 : powMod 23 17 (4935719 - 1) 4935719 = 1 := by decide
    rw [h1, Nat.cast_one]
  · intro q hq hdvd
    have hf : (4935719 - 1) = 2 * 2467859 := by decide
    rw [hf] at hdvd
    have hcases : q = 2 ∨ q = 2467859 := by
      rcases (Nat.Prime.dvd_mul hq).mp hdvd with h | h
      · exact Or.inl ((Nat.prime_dvd_prime_iff_eq hq (by norm_num)).mp h)
      · exact Or.inr ((Nat.prime_dvd_prime_iff_eq hq prime_2467859).mp h)
    rcases hcases with h | h <;> subst h <;>
      rw [zmod_pow_powMod _ _ _ 23 (by decide)] <;>
      exact natCast_ne_one _ _ (by decide)

theorem prime_98714381 : Nat.Prime 98714381 := by
  apply lucas_primality 98714381 ((2 : ℕ) : ZMod 98714381)
  · rw [zmod_pow_powMod _ _ _ 27 (by decide)]
    have h1 : powMod 27 2 (98714381 - 1) 98714381 = 1 := by decide
    rw [h1, Nat.cast_one]
  · intro q hq hdvd
    have hf : (98714381 - 1) = 2 ^ 2 * 5 * 4935719 := by decide
    rw [hf] at hdvd
    have hcases : q = 2 ∨ q = 5 ∨ q = 4935719 := by
      rcases (Nat.Prime.dvd_mul hq).mp hdvd with h | h
      · rcases (Nat.Prime.dvd_mul hq).mp h with h | h
        · exact Or.inl ((Nat.prime_dvd_prime_iff_eq hq (by norm_num)).mp
            (hq.dvd_of_dvd_pow h))
        · exact Or.inr (Or.inl ((Nat.prime_dvd_prime_iff_eq hq (by norm_num)).mp h))
      · exact Or.inr (Or.inr ((Nat.prime_dvd_prime_iff_eq hq prime_4935719).mp h))
    rcases hcases with h | h | h <;> subst h <;>
      rw [zmod_pow_powMod _ _ _ 27 (by decide)] <;>
      exact natCast_ne_one _ _ (by decide)

theorem prime_9269339 : Nat.Prime 9269339 := by
  apply lucas_primality 9269339 ((6 : ℕ) : ZMod 9269339)
  · rw [zmod_pow_powMod _ _ _ 24 (by decide)]
    have h1 : powMod 24 6 (9269339 - 1) 9269339 = 1 := by decide
    rw [h1, Nat.cast_one]
  · intro q hq hdvd
    have hf : (9269339 - 1) = 2 * 13 * 43 * 8291 := by decide
    rw [hf] at hdvd
    have hcases : q = 2 ∨ q = 13 ∨ q = 43 ∨ q = 8291 := by
      rcases (Nat.Prime.dvd_mul hq).mp hdvd with h | h
      · rcases (Nat.Prime.dvd_mul hq).mp h with h | h
        · rcases (Nat.Prime.dvd_mul hq).mp h with h | h
          · exact Or.inl ((Nat.prime_dvd_prime_iff_eq hq (by norm_num)).mp h)
          · exact Or.inr (Or.inl ((Nat.prime_dvd_prime_iff_eq hq (by norm_num)).mp h))
        · exact Or.inr (Or.inr (Or.inl ((Nat.prime_dvd_prime_iff_eq hq (by norm_num)).mp h)))
      · exact Or.inr (Or.inr (Or.inr ((Nat.prime_dvd_prime_iff_eq hq (by norm_num)).mp h)))
    rcases hcases with h | h | h | h <;> subst h <;>
      rw [zmod_pow_powMod _ _ _ 24 (by decide)] <;>
      exact natCast_ne_one _ _ (by decide)

theorem prime_166848103 : Nat.Prime 166848103 := by
  apply lucas_primality 166848103 ((6 : ℕ) : ZMod 166848103)
  · rw [zmod_pow_powMod _ _ _ 28 (by decide)]
    have h1 : powMod 28 6 (166848103 - 1) 166848103 = 1 := by decide
    rw [h1, Nat.cast_one]
  · intro q hq hdvd
    have hf : (166848103 - 1) = 2 * 3 ^ 2 * 9269339 := by decide
    rw [hf] at hdvd
    have hcases : q = 2 ∨ q = 3 ∨ q = 9269339 := by
      rcases (Nat.Prime.dvd_mul hq).mp hdvd with h | h
      · rcases (Nat.Prime.dvd_mul hq).mp h with h | h
        · exact Or.inl ((Nat.prime_dvd_prime_iff_eq hq (by norm_num)).mp h)
        · exact Or.inr (Or.inl ((Nat.prime_dvd_prime_iff_eq hq (by norm_num)).mp
            (hq.dvd_of_dvd_pow h)))
      · exact Or.inr (Or.inr ((Nat.prime_dvd_prime_iff_eq hq prime_9269339).mp h))
    rcases hcases with h | h | h <;> subst h <;>
      rw [zmod_pow_powMod _ _ _ 28 (by decide)] <;>
      exact natCast_ne_one _ _ (by decide)

theorem P_sub_one_factored : P - 1 = 2 ^ 192 * 5 * 7 * 98714381 * 166848103 := by decide

theorem P_prime : Nat.Prime P := by
  have h3 : (3 : ZMod P) = ((3 : ℕ) : ZMod P) := by norm_cast
  apply lucas_primality P (3 : ZMod P)
  · rw [h3, zmod_pow_powMod P 3 (P - 1) 252 (by decide)]
    have h1 : powMod 252 3 (P - 1) P = 1 := by decide
    rw [h1, Nat.cast_one]
  · intro q hq hdvd
    rw [P_sub_one_factored] at hdvd
    have hq2 : Nat.Prime 2 := by norm_num
    have hq5 : Nat.Prime 5 := by norm_num
    have hq7 : Nat.Prime 7 := by norm_num
    have hqA : Nat.Prime 98714381 := prime_98714381
    have hqB : Nat.Prime 166848103 := prime_166848103
    have hcases : q = 2 ∨ q = 5 ∨ q = 7 ∨ q = 98714381 ∨ q = 166848103 := by
      rcases (Nat.Prime.dvd_mul hq).mp hdvd with h | h
      · rcases (Nat.Prime.dvd_mul hq).mp h with h | h
        · rcases (Nat.Prime.dvd_mul hq).mp h with h | h
          · rcases (Nat.Prime.dvd_mul hq).mp h with h | h
            · exact Or.inl ((Nat.prime_dvd_prime_iff_eq hq hq2).mp (hq.dvd_of_dvd_pow h))
            · exact Or.inr (Or.inl ((Nat.prime_dvd_prime_iff_eq hq hq5).mp h))
          · exact Or.inr (Or.inr (Or.inl ((Nat.prime_dvd_prime_iff_eq hq hq7).mp h)))
        · exact Or.inr (Or.inr (Or.inr (Or.inl ((Nat.prime_dvd_prime_iff_eq hq hqA).mp h))))
      · exact Or.inr (Or.inr (Or.inr (Or.inr ((Nat.prime_dvd_prime_iff_eq hq hqB).mp h))))
    rw [h3]
    rcases hcases with h | h | h | h | h <;> subst h <;>
      rw [zmod_pow_powMod P 3 _ 252 (by decide)] <;>
      exact natCast_ne_one _ _ (by decide)

instance P_prime_fact : Fact (Nat.Prime P) := ⟨P_prime⟩

/-! ### Bridge between the embedded operations and `ZMod P`. -/

theorem to_felt_lt (v : ℤ) : to_felt v < P := by
  have hP := P_pos
  have h1 : 0 ≤ v % (P : ℤ) := Int.emod_nonneg v (by exact_mod_cast hP.ne')
  have h2 : v % (P : ℤ) < (P : ℤ) := Int.emod_lt_of_pos v (by exact_mod_cast hP)
  unfold to_felt
  have h3 := (Int.toNat_lt_toNat (by exact_mod_cast hP : (0 : ℤ) < (P : ℤ))).mpr h2
  simpa using h3

theorem to_felt_natCast {a : ℕ} (h : a < P) : to_felt (a : ℤ) = a := by
  unfold to_felt
  rw [Int.emod_eq_of_lt (by positivity) (by exact_mod_cast h)]
  exact Int.toNat_natCast a

theorem cast_to_felt (v : ℤ) : ((to_felt v : ℕ) : ZMod P) = (v : ZMod P) := by
  have h1 : 0 ≤ v % (P : ℤ) := Int.emod_nonneg v (by exact_mod_cast P_pos.ne')
  unfold to_felt
  rw [← Int.cast_natCast, Int.toNat_of_nonneg h1, ZMod.intCast_mod]

theorem natCast_inj_of_lt {a b : ℕ} (ha : a < P) (hb : b < P)
    (h : ((a : ℕ) : ZMod P) = ((b : ℕ) : ZMod P)) : a = b := by
  have h2 : a % P = b % P := (ZMod.natCast_eq_natCast_iff a b P).mp h
  rwa [Nat.mod_eq_of_lt ha, Nat.mod_eq_of_lt hb] at h2

theorem pow_P_sub_two_eq_inv {a : ZMod P} (ha : a ≠ 0) : a ^ (P - 2) = a⁻¹ := by
  have h1 : a ^ (P - 1) = 1 := ZMod.pow_card_sub_one_eq_one ha
  have h2 : (P - 2) + 1 = P - 1 := by
    have : 2 ≤ P := by decide
    omega
  have h3 : a ^ (P - 2) * a = 1 := by rw [← pow_succ, h2, h1]
  exact eq_inv_of_mul_eq_one_left h3

theorem field_inv_eq_ok (v : ℤ) (h : to_felt v ≠ 0) :
    field_inv v = .ok (to_felt v ^ (P - 2) % P) := by
  simp only [field_inv]
  rw [if_neg h]

theorem cast_field_inv (d : ℕ) (hd : ((d : ℕ) : ZMod P) ≠ 0) :
    ((d ^ (P - 2) % P : ℕ) : ZMod P) = ((d : ℕ) : ZMod P)⁻¹ := by
  rw [ZMod.natCast_mod, Nat.cast_pow, pow_P_sub_two_eq_inv hd]

/-- Master lemma for `recover_identity_secret`: on distinct normalized
evaluation points it succeeds, its result is canonically reduced, and in
`ZMod P` the result is the interpolated y-intercept formula. -/
theorem recover_spec (x1 y1 x2 y2 : ℤ) (hne : to_felt x1 ≠ to_felt x2) :
    ∃ r : ℕ, recover_identity_secret x1 y1 x2 y2 = .ok r ∧ r < P ∧
      ((r : ℕ) : ZMod P) =
        ((y1 : ZMod P) * (x2 : ZMod P) - (y2 : ZMod P) * (x1 : ZMod P)) *
          ((x2 : ZMod P) - (x1 : ZMod P))⁻¹ := by
  have hcast_sub :
      ((to_felt ((to_felt x2 : ℤ) - (to_felt x1 : ℤ)) : ℕ) : ZMod P)
        = (x2 : ZMod P) - (x1 : ZMod P) := by
    rw [cast_to_felt]
    push_cast
    rw [cast_to_felt, cast_to_felt]
  have hsub_ne : (x2 : ZMod P) - (x1 : ZMod P) ≠ 0 := by
    intro h0
    apply hne
    apply natCast_inj_of_lt (to_felt_lt x1) (to_felt_lt x2)
    rw [cast_to_felt, cast_to_felt]
    exact (sub_eq_zero.mp h0).symm
  have hd_ne : to_felt ((to_felt x2 : ℤ) - (to_felt x1 : ℤ)) ≠ 0 := by
    intro h0
    apply hsub_ne
    rw [← hcast_sub, h0, Nat.cast_zero]
  have hinv := field_inv_eq_ok _ hd_ne
  have heq : recover_identity_secret x1 y1 x2 y2 =
      .ok (to_felt ((to_felt y1 : ℤ) * (to_felt x2 : ℤ) - (to_felt y2 : ℤ) * (to_felt x1 : ℤ))
            * (to_felt ((to_felt x2 : ℤ) - (to_felt x1 : ℤ)) ^ (P - 2) % P) % P) := by
    simp only [recover_identity_secret]
    rw [if_neg hne, hinv]
  refine ⟨_, heq, Nat.mod_lt _ P_pos, ?_⟩
  have hnum : ((to_felt ((to_felt y1 : ℤ) * (to_felt x2 : ℤ)
        - (to_felt y2 : ℤ) * (to_felt x1 : ℤ)) : ℕ) : ZMod P)
      = (y1 : ZMod P) * (x2 : ZMod P) - (y2 : ZMod P) * (x1 : ZMod P) := by
    rw [cast_to_felt]
    push_cast
    rw [cast_to_felt, cast_to_felt, cast_to_felt, cast_to_felt]
  rw [ZMod.natCast_mod, Nat.cast_mul, hnum,
    cast_field_inv _ (by rw [hcast_sub]; exact hsub_ne), hcast_sub]

/-- Symmetry of `recover_identity_secret` in its two points (on distinct
normalized evaluation points). -/
theorem recover_symm (x1 y1 x2 y2 : ℤ) (hne : to_felt x1 ≠ to_felt x2) :
    recover_identity_secret x1 y1 x2 y2 = recover_identity_secret x2 y2 x1 y1 := by
  obtain ⟨r1, heq1, hr1, hcast1⟩ := recover_spec x1 y1 x2 y2 hne
  obtain ⟨r2, heq2, hr2, hcast2⟩ := recover_spec x2 y2 x1 y1 (Ne.symm hne)
  have hval : ((r2 : ℕ) : ZMod P) = ((r1 : ℕ) : ZMod P) := by
    rw [hcast1, hcast2]
    rw [show (y2 : ZMod P) * (x1 : ZMod P) - (y1 : ZMod P) * (x2 : ZMod P)
          = -((y1 : ZMod P) * (x2 : ZMod P) - (y2 : ZMod P) * (x1 : ZMod P)) by ring,
        show (x1 : ZMod P) - (x2 : ZMod P) = -((x2 : ZMod P) - (x1 : ZMod P)) by ring,
        inv_neg, neg_mul_neg]
  rw [heq1, heq2, natCast_inj_of_lt hr2 hr1 hval]

/-! ### Branch characterizations of `adjudicate`. -/

theorem adjudicate_none {l : Ledger} {s : Share}
    (h : l (to_felt_hex (s.nullifier : ℤ)) = none) :
    adjudicate l s = .ok (.Accepted,
      Function.update l (to_felt_hex (s.nullifier : ℤ))
        (some (s.ticket_index, s.x, s.y))) := by
  simp only [adjudicate]
  rw [h]

theorem adjudicate_mismatch {l : Ledger} {s : Share} {pt px py : ℕ}
    (h : l (to_felt_hex (s.nullifier : ℤ)) = some (pt, px, py))
    (hp : pt ≠ s.ticket_index) :
    adjudicate l s = .ok (.RejectedTicketMismatch (pt, px, py), l) := by
  simp only [adjudicate]
  rw [h]
  simp only [if_pos hp]

theorem adjudicate_replay {l : Ledger} {s : Share} {pt px py : ℕ}
    (h : l (to_felt_hex (s.nullifier : ℤ)) = some (pt, px, py))
    (hp : pt = s.ticket_index) (hx : px = s.x) (hy : py = s.y) :
    adjudicate l s = .ok (.ReplaySameShare, l) := by
  simp only [adjudicate]
  rw [h]
  simp only [if_neg (not_not_intro hp), if_pos hx, if_pos hy]

theorem adjudicate_inconsistent {l : Ledger} {s : Share} {pt px py : ℕ}
    (h : l (to_felt_hex (s.nullifier : ℤ)) = some (pt, px, py))
    (hp : pt = s.ticket_index) (hx : px = s.x) (hy : py ≠ s.y) :
    adjudicate l s = .ok (.RejectedInconsistentShare, l) := by
  simp only [adjudicate]
  rw [h]
  simp only [if_neg (not_not_intro hp), if_pos hx, if_neg hy]

theorem adjudicate_slash_raw {l : Ledger} {s : Share} {pt px py : ℕ}
    (h : l (to_felt_hex (s.nullifier : ℤ)) = some (pt, px, py))
    (hp : pt = s.ticket_index) (hx : px ≠ s.x) :
    adjudicate l s =
      match slash_payload s (Share.mk s.nullifier s.ticket_index px py) with
      | .error e => .error e
      | .ok payload => .ok (.Slashed payload, l) := by
  simp only [adjudicate]
  rw [h]
  simp only [if_neg (not_not_intro hp), if_neg hx]

theorem adjudicate_slash {l : Ledger} {s : Share} {pt px py : ℕ}
    (h : l (to_felt_hex (s.nullifier : ℤ)) = some (pt, px, py))
    (hp : pt = s.ticket_index) (hx : px ≠ s.x) (hpxP : px < P) (hsxP : s.x < P) :
    ∃ r : ℕ, recover_identity_secret (s.x : ℤ) (s.y : ℤ) (px : ℤ) (py : ℤ) = .ok r ∧ r < P ∧
      adjudicate l s = .ok (.Slashed
        { nullifier := to_felt_hex (s.nullifier : ℤ)
        , ticket_index := to_felt_hex (s.ticket_index : ℤ)
        , recovered_identity_secret := to_felt_hex (r : ℤ)
        , shares := [(to_felt_hex (s.x : ℤ), to_felt_hex (s.y : ℤ)),
                     (to_felt_hex (px : ℤ), to_felt_hex (py : ℤ))] }, l) := by
  have hne' : to_felt (s.x : ℤ) ≠ to_felt (px : ℤ) := by
    rw [to_felt_natCast hsxP, to_felt_natCast hpxP]
    exact fun hxs => hx hxs.symm
  obtain ⟨r, hrec, hrP, _⟩ := recover_spec (s.x : ℤ) (s.y : ℤ) (px : ℤ) (py : ℤ) hne'
  refine ⟨r, hrec, hrP, ?_⟩
  rw [adjudicate_slash_raw h hp hx]
  simp only [slash_payload]
  rw [hrec]

theorem adjudicate_frame (l : Ledger) (s : Share) (o : Outcome) (l' : Ledger)
    (h : adjudicate l s = .ok (o, l')) :
    (o ≠ .Accepted → l' = l) ∧
    (o = .Accepted → l (to_felt_hex (s.nullifier : ℤ)) = none ∧
      l' = Function.update l (to_felt_hex (s.nullifier : ℤ))
        (some (s.ticket_index, s.x, s.y))) := by
  cases hkey : l (to_felt_hex (s.nullifier : ℤ)) with
  | none =>
    rw [adjudicate_none hkey] at h
    simp only [Except.ok.injEq, Prod.mk.injEq] at h
    obtain ⟨ho, hl⟩ := h
    subst ho
    subst hl
    exact ⟨fun hno => absurd rfl hno, fun _ => ⟨rfl, rfl⟩⟩
  | some e =>
    obtain ⟨pt, px, py⟩ := e
    by_cases hpt : pt ≠ s.ticket_index
    · rw [adjudicate_mismatch hkey hpt] at h
      simp only [Except.ok.injEq, Prod.mk.injEq] at h
      obtain ⟨ho, hl⟩ := h
      subst ho
      subst hl
      exact ⟨fun _ => rfl, fun hAcc => by simp at hAcc⟩
    · have hpt' : pt = s.ticket_index := not_not.mp hpt
      by_cases hx : px = s.x
      · by_cases hy : py = s.y
        · rw [adjudicate_replay hkey hpt' hx hy] at h
          simp only [Except.ok.injEq, Prod.mk.injEq] at h
          obtain ⟨ho, hl⟩ := h
          subst ho
          subst hl
          exact ⟨fun _ => rfl, fun hAcc => by simp at hAcc⟩
        · rw [adjudicate_inconsistent hkey hpt' hx hy] at h
          simp only [Except.ok.injEq, Prod.mk.injEq] at h
          obtain ⟨ho, hl⟩ := h
          subst ho
          subst hl
          exact ⟨fun _ => rfl, fun hAcc => by simp at hAcc⟩
      · rw [adjudicate_slash_raw hkey hpt' hx] at h
        cases hsp : slash_payload s (Share.mk s.nullifier s.ticket_index px py) with
        | error e =>
          rw [hsp] at h
          simp at h
        | ok payload =>
          rw [hsp] at h
          simp only [Except.ok.injEq, Prod.mk.injEq] at h
          obtain ⟨ho, hl⟩ := h
          subst ho
          subst hl
          exact ⟨fun _ => rfl, fun hAcc => by simp at hAcc⟩

/-! ### Claim theorems. -/

/-- C1: for every pair of field elements `a0, a1` and every pair of distinct
normalized evaluation points `x1 ≠ x2`, with `y1 = (a0 + a1*x1) mod P` and
`y2 = (a0 + a1*x2) mod P`, `recover_identity_secret x1 y1 x2 y2` returns
exactly `a0`. -/
theorem claim_C1 (a0 a1 x1 x2 : ℕ) (ha0 : a0 < P) (ha1 : a1 < P)
    (hx1 : x1 < P) (hx2 : x2 < P) (hne : x1 ≠ x2) :
    recover_identity_secret (x1 : ℤ) (((a0 + a1 * x1) % P : ℕ) : ℤ)
      (x2 : ℤ) (((a0 + a1 * x2) % P : ℕ) : ℤ) = .ok a0 := by
  have hne' : to_felt (x1 : ℤ) ≠ to_felt (x2 : ℤ) := by
    rw [to_felt_natCast hx1, to_felt_natCast hx2]
    exact hne
  obtain ⟨r, heq, hr, hcast⟩ := recover_spec (x1 : ℤ) (((a0 + a1 * x1) % P : ℕ) : ℤ)
    (x2 : ℤ) (((a0 + a1 * x2) % P : ℕ) : ℤ) hne'
  have hy1 : ((((a0 + a1 * x1) % P : ℕ) : ℤ) : ZMod P)
      = ((a0 : ℕ) : ZMod P) + ((a1 : ℕ) : ZMod P) * ((x1 : ℕ) : ZMod P) := by
    push_cast [ZMod.natCast_mod]
    ring
  have hy2 : ((((a0 + a1 * x2) % P : ℕ) : ℤ) : ZMod P)
      = ((a0 : ℕ) : ZMod P) + ((a1 : ℕ) : ZMod P) * ((x2 : ℕ) : ZMod P) := by
    push_cast [ZMod.natCast_mod]
    ring
  have hX1 : (((x1 : ℕ) : ℤ) : ZMod P) = ((x1 : ℕ) : ZMod P) := Int.cast_natCast x1
  have hX2 : (((x2 : ℕ) : ℤ) : ZMod P) = ((x2 : ℕ) : ZMod P) := Int.cast_natCast x2
  rw [hy1, hy2, hX1, hX2] at hcast
  have hxx : ((x2 : ℕ) : ZMod P) - ((x1 : ℕ) : ZMod P) ≠ 0 := by
    intro h0
    exact hne (natCast_inj_of_lt hx2 hx1 (sub_eq_zero.mp h0)).symm
  have halg : (((a0 : ℕ) : ZMod P) + ((a1 : ℕ) : ZMod P) * ((x1 : ℕ) : ZMod P))
        * ((x2 : ℕ) : ZMod P)
      - (((a0 : ℕ) : ZMod P) + ((a1 : ℕ) : ZMod P) * ((x2 : ℕ) : ZMod P))
        * ((x1 : ℕ) : ZMod P)
      = ((a0 : ℕ) : ZMod P) * (((x2 : ℕ) : ZMod P) - ((x1 : ℕ) : ZMod P)) := by
    ring
  rw [halg, mul_assoc, mul_inv_cancel₀ hxx, mul_one] at hcast
  rw [natCast_inj_of_lt hr ha0 hcast] at heq
  exact heq

/-- C1 witness: concrete instance `a0 = 7, a1 = 3, x1 = 2, x2 = 5`
(`y1 = 13`, `y2 = 22`). -/
theorem claim_C1_witness :
    (7 : ℕ) < P ∧ (3 : ℕ) < P ∧ (2 : ℕ) < P ∧ (5 : ℕ) < P ∧ (2 : ℕ) ≠ 5 ∧
    recover_identity_secret ((2 : ℕ) : ℤ) (((7 + 3 * 2) % P : ℕ) : ℤ)
      ((5 : ℕ) : ℤ) (((7 + 3 * 5) % P : ℕ) : ℤ) = .ok 7 :=
  ⟨by decide, by decide, by decide, by decide, by decide,
    claim_C1 7 3 2 5 (by decide) (by decide) (by decide) (by decide) (by decide)⟩

/-- C7: for every normalized nonzero field element `a`, `field_inv` succeeds
with `a ^ (P-2) % P`, inverting twice returns `a`, and `a * invert(a) % P = 1`. -/
theorem claim_C7 (a : ℕ) (ha : a < P) (hne : a ≠ 0) :
    field_inv (a : ℤ) = .ok (a ^ (P - 2) % P) ∧
    field_inv ((a ^ (P - 2) % P : ℕ) : ℤ) = .ok a ∧
    a * (a ^ (P - 2) % P) % P = 1 := by
  have hta : to_felt (a : ℤ) = a := to_felt_natCast ha
  have h1 : field_inv (a : ℤ) = .ok (a ^ (P - 2) % P) := by
    rw [field_inv_eq_ok _ (by rw [hta]; exact hne), hta]
  have hAne : ((a : ℕ) : ZMod P) ≠ 0 := by
    intro h0
    exact hne (natCast_inj_of_lt ha P_pos (h0.trans Nat.cast_zero.symm))
  have hb_lt : a ^ (P - 2) % P < P := Nat.mod_lt _ P_pos
  have hbcast : ((a ^ (P - 2) % P : ℕ) : ZMod P) = ((a : ℕ) : ZMod P)⁻¹ :=
    cast_field_inv a hAne
  have hBne : ((a ^ (P - 2) % P : ℕ) : ZMod P) ≠ 0 := by
    rw [hbcast]
    exact inv_ne_zero hAne
  have hbne : a ^ (P - 2) % P ≠ 0 := by
    intro h0
    apply hBne
    rw [h0, Nat.cast_zero]
  have htb : to_felt ((a ^ (P - 2) % P : ℕ) : ℤ) = a ^ (P - 2) % P :=
    to_felt_natCast hb_lt
  refine ⟨h1, ?_, ?_⟩
  · rw [field_inv_eq_ok _ (by rw [htb]; exact hbne), htb]
    have hcast2 : (((a ^ (P - 2) % P) ^ (P - 2) % P : ℕ) : ZMod P) = ((a : ℕ) : ZMod P) := by
      rw [cast_field_inv _ hBne, hbcast, inv_inv]
    rw [natCast_inj_of_lt (Nat.mod_lt _ P_pos) ha hcast2]
  · have hone : ((a * (a ^ (P - 2) % P) % P : ℕ) : ZMod P) = ((1 : ℕ) : ZMod P) := by
      rw [ZMod.natCast_mod, Nat.cast_mul, hbcast, mul_inv_cancel₀ hAne, Nat.cast_one]
    exact natCast_inj_of_lt (Nat.mod_lt _ P_pos) (by decide) hone

/-- C7 witness: concrete instance `a = 3`. -/
theorem claim_C7_witness :
    (3 : ℕ) < P ∧ (3 : ℕ) ≠ 0 ∧
    (field_inv ((3 : ℕ) : ℤ) = .ok (3 ^ (P - 2) % P) ∧
     field_inv ((3 ^ (P - 2) % P : ℕ) : ℤ) = .ok 3 ∧
     3 * (3 ^ (P - 2) % P) % P = 1) :=
  ⟨by decide, by decide, claim_C7 3 (by decide) (by decide)⟩

/-- C3: `recover_identity_secret` is symmetric in its two points, and for two
distinct-x shares of the same nullifier and ticket the secret reported by the
`Slashed` outcome is identical regardless of which share was admitted first. -/
theorem claim_C3 (n t x1 y1 x2 y2 : ℕ) (hn : n < P) (ht : t < P)
    (hx1 : x1 < P) (hx2 : x2 < P) (hne : x1 ≠ x2) :
    recover_identity_secret (x1 : ℤ) (y1 : ℤ) (x2 : ℤ) (y2 : ℤ)
      = recover_identity_secret (x2 : ℤ) (y2 : ℤ) (x1 : ℤ) (y1 : ℤ) ∧
    ∃ (l1 l2 l1' l2' : Ledger) (p q : SlashPayload),
      adjudicate emptyLedger (Share.mk n t x1 y1) = .ok (.Accepted, l1) ∧
      adjudicate l1 (Share.mk n t x2 y2) = .ok (.Slashed p, l1') ∧
      adjudicate emptyLedger (Share.mk n t x2 y2) = .ok (.Accepted, l2) ∧
      adjudicate l2 (Share.mk n t x1 y1) = .ok (.Slashed q, l2') ∧
      p.recovered_identity_secret = q.recovered_identity_secret := by
  have hne' : to_felt (x1 : ℤ) ≠ to_felt (x2 : ℤ) := by
    rw [to_felt_natCast hx1, to_felt_natCast hx2]
    exact hne
  have hsymm := recover_symm (x1 : ℤ) (y1 : ℤ) (x2 : ℤ) (y2 : ℤ) hne'
  refine ⟨hsymm, ?_⟩
  have hkey1 : emptyLedger (to_felt_hex (((Share.mk n t x1 y1).nullifier : ℕ) : ℤ)) = none := rfl
  have hkey2 : emptyLedger (to_felt_hex (((Share.mk n t x2 y2).nullifier : ℕ) : ℤ)) = none := rfl
  have hacc1 := adjudicate_none hkey1
  have hacc2 := adjudicate_none hkey2
  have hl1 : Function.update emptyLedger (to_felt_hex ((n : ℕ) : ℤ)) (some (t, x1, y1))
      (to_felt_hex (((Share.mk n t x2 y2).nullifier : ℕ) : ℤ)) = some (t, x1, y1) :=
    Function.update_same _ _ _
  have hl2 : Function.update emptyLedger (to_felt_hex ((n : ℕ) : ℤ)) (some (t, x2, y2))
      (to_felt_hex (((Share.mk n t x1 y1).nullifier : ℕ) : ℤ)) = some (t, x2, y2) :=
    Function.update_same _ _ _
  obtain ⟨r12, hrec12, _, hsl12⟩ :=
    adjudicate_slash (s := Share.mk n t x2 y2) hl1 rfl hne hx1 hx2
  obtain ⟨r21, hrec21, _, hsl21⟩ :=
    adjudicate_slash (s := Share.mk n t x1 y1) hl2 rfl (Ne.symm hne) hx2 hx1
  have hrr : r12 = r21 := by
    have h12 : recover_identity_secret (x2 : ℤ) (y2 : ℤ) (x1 : ℤ) (y1 : ℤ) = .ok r12 := hrec12
    have h21 : recover_identity_secret (x1 : ℤ) (y1 : ℤ) (x2 : ℤ) (y2 : ℤ) = .ok r21 := hrec21
    have := h12.symm.trans (hsymm.symm.trans h21)
    simpa using this
  refine ⟨_, _, _, _, _, _, hacc1, hsl12, hacc2, hsl21, ?_⟩
  rw [hrr]

/-- C3 witness: concrete instance `n = 1, t = 1, (x1, y1) = (2, 13),
(x2, y2) = (5, 22)`. -/
theorem claim_C3_witness :
    (1 : ℕ) < P ∧ (2 : ℕ) < P ∧ (5 : ℕ) < P ∧ (2 : ℕ) ≠ 5 ∧
    (recover_identity_secret ((2 : ℕ) : ℤ) ((13 : ℕ) : ℤ) ((5 : ℕ) : ℤ) ((22 : ℕ) : ℤ)
      = recover_identity_secret ((5 : ℕ) : ℤ) ((22 : ℕ) : ℤ) ((2 : ℕ) : ℤ) ((13 : ℕ) : ℤ) ∧
    ∃ (l1 l2 l1' l2' : Ledger) (p q : SlashPayload),
      adjudicate emptyLedger (Share.mk 1 1 2 13) = .ok (.Accepted, l1) ∧
      adjudicate l1 (Share.mk 1 1 5 22) = .ok (.Slashed p, l1') ∧
      adjudicate emptyLedger (Share.mk 1 1 5 22) = .ok (.Accepted, l2) ∧
      adjudicate l2 (Share.mk 1 1 2 13) = .ok (.Slashed q, l2') ∧
      p.recovered_identity_secret = q.recovered_identity_secret) :=
  ⟨by decide, by decide, by decide, by decide,
    claim_C3 1 1 2 13 5 22 (by decide) (by decide) (by decide) (by decide) (by decide)⟩

/-- C2: a single `adjudicate` call follows the five-way decision tree on the
ledger entry for the share's nullifier: absent entry inserts and accepts;
ticket mismatch rejects with the stored entry; same ticket and same point
replays or rejects inconsistency according to `y`; same ticket and different
`x` slashes.  The guarding conditions are mutually exclusive and exhaustive. -/
theorem claim_C2 (l : Ledger) (s : Share) (pt px py : ℕ)
    (hsx : s.x < P) (hpx : px < P) :
    (l (to_felt_hex (s.nullifier : ℤ)) = none →
      adjudicate l s = .ok (.Accepted,
        Function.update l (to_felt_hex (s.nullifier : ℤ))
          (some (s.ticket_index, s.x, s.y)))) ∧
    (l (to_felt_hex (s.nullifier : ℤ)) = some (pt, px, py) → pt ≠ s.ticket_index →
      adjudicate l s = .ok (.RejectedTicketMismatch (pt, px, py), l)) ∧
    (l (to_felt_hex (s.nullifier : ℤ)) = some (pt, px, py) → pt = s.ticket_index →
      px = s.x → py = s.y → adjudicate l s = .ok (.ReplaySameShare, l)) ∧
    (l (to_felt_hex (s.nullifier : ℤ)) = some (pt, px, py) → pt = s.ticket_index →
      px = s.x → py ≠ s.y → adjudicate l s = .ok (.RejectedInconsistentShare, l)) ∧
    (l (to_felt_hex (s.nullifier : ℤ)) = some (pt, px, py) → pt = s.ticket_index →
      px ≠ s.x → ∃ (p : SlashPayload) (r : ℕ),
        adjudicate l s = .ok (.Slashed p, l) ∧
        recover_identity_secret (s.x : ℤ) (s.y : ℤ) (px : ℤ) (py : ℤ) = .ok r ∧
        p.recovered_identity_secret = to_felt_hex (r : ℤ)) := by
  refine ⟨fun h => adjudicate_none h,
          fun h hp => adjudicate_mismatch h hp,
          fun h hp hx hy => adjudicate_replay h hp hx hy,
          fun h hp hx hy => adjudicate_inconsistent h hp hx hy,
          fun h hp hx => ?_⟩
  obtain ⟨r, hrec, _, heq⟩ := adjudicate_slash h hp hx hpx hsx
  exact ⟨_, r, heq, hrec, rfl⟩

/-- C2 witness: concrete instance at the empty ledger with share
`(nullifier 1, ticket 1, x 2, y 5)` and stored entry components `(0, 0, 0)`. -/
theorem claim_C2_witness :
    (Share.mk 1 1 2 5).x < P ∧ (0 : ℕ) < P ∧
    ((emptyLedger (to_felt_hex ((Share.mk 1 1 2 5).nullifier : ℤ)) = none →
      adjudicate emptyLedger (Share.mk 1 1 2 5) = .ok (.Accepted,
        Function.update emptyLedger (to_felt_hex ((Share.mk 1 1 2 5).nullifier : ℤ))
          (some ((Share.mk 1 1 2 5).ticket_index, (Share.mk 1 1 2 5).x, (Share.mk 1 1 2 5).y)))) ∧
    (emptyLedger (to_felt_hex ((Share.mk 1 1 2 5).nullifier : ℤ)) = some (0, 0, 0) →
      (0 : ℕ) ≠ (Share.mk 1 1 2 5).ticket_index →
      adjudicate emptyLedger (Share.mk 1 1 2 5) = .ok (.RejectedTicketMismatch (0, 0, 0), emptyLedger)) ∧
    (emptyLedger (to_felt_hex ((Share.mk 1 1 2 5).nullifier : ℤ)) = some (0, 0, 0) →
      (0 : ℕ) = (Share.mk 1 1 2 5).ticket_index →
      (0 : ℕ) = (Share.mk 1 1 2 5).x → (0 : ℕ) = (Share.mk 1 1 2 5).y →
      adjudicate emptyLedger (Share.mk 1 1 2 5) = .ok (.ReplaySameShare, emptyLedger)) ∧
    (emptyLedger (to_felt_hex ((Share.mk 1 1 2 5).nullifier : ℤ)) = some (0, 0, 0) →
      (0 : ℕ) = (Share.mk 1 1 2 5).ticket_index →
      (0 : ℕ) = (Share.mk 1 1 2 5).x → (0 : ℕ) ≠ (Share.mk 1 1 2 5).y →
      adjudicate emptyLedger (Share.mk 1 1 2 5) = .ok (.RejectedInconsistentShare, emptyLedger)) ∧
    (emptyLedger (to_felt_hex ((Share.mk 1 1 2 5).nullifier : ℤ)) = some (0, 0, 0) →
      (0 : ℕ) = (Share.mk 1 1 2 5).ticket_index →
      (0 : ℕ) ≠ (Share.mk 1 1 2 5).x →
      ∃ (p : SlashPayload) (r : ℕ),
        adjudicate emptyLedger (Share.mk 1 1 2 5) = .ok (.Slashed p, emptyLedger) ∧
        recover_identity_secret (((Share.mk 1 1 2 5).x : ℕ) : ℤ) (((Share.mk 1 1 2 5).y : ℕ) : ℤ)
          ((0 : ℕ) : ℤ) ((0 : ℕ) : ℤ) = .ok r ∧
        p.recovered_identity_secret = to_felt_hex ((r : ℕ) : ℤ))) :=
  ⟨by decide, by decide, claim_C2 emptyLedger (Share.mk 1 1 2 5) 0 0 0 (by decide) (by decide)⟩

/-- C4: non-`Accepted` outcomes leave the ledger map unchanged, and an
`Accepted` outcome only adds the single entry for the previously absent
nullifier key, leaving every other key unchanged. -/
theorem claim_C4 (l : Ledger) (s : Share) (o : Outcome) (l' : Ledger)
    (h : adjudicate l s = .ok (o, l')) :
    (o ≠ .Accepted → l' = l) ∧
    (o = .Accepted → l (to_felt_hex (s.nullifier : ℤ)) = none ∧
      l' = Function.update l (to_felt_hex (s.nullifier : ℤ))
        (some (s.ticket_index, s.x, s.y)) ∧
      ∀ k, k ≠ to_felt_hex (s.nullifier : ℤ) → l' k = l k) := by
  obtain ⟨h1, h2⟩ := adjudicate_frame l s o l' h
  refine ⟨h1, fun hA => ⟨(h2 hA).1, (h2 hA).2, fun k hk => ?_⟩⟩
  rw [(h2 hA).2]
  exact Function.update_noteq hk _ _

/-- C4 witness: first submission on the empty ledger is `Accepted` and inserts
exactly the share's entry. -/
theorem claim_C4_witness :
    adjudicate emptyLedger (Share.mk 1 1 2 5) = .ok (.Accepted,
      Function.update emptyLedger (to_felt_hex (((Share.mk 1 1 2 5).nullifier : ℕ) : ℤ))
        (some ((Share.mk 1 1 2 5).ticket_index, (Share.mk 1 1 2 5).x, (Share.mk 1 1 2 5).y))) ∧
    ((Outcome.Accepted ≠ .Accepted →
        Function.update emptyLedger (to_felt_hex (((Share.mk 1 1 2 5).nullifier : ℕ) : ℤ))
          (some ((Share.mk 1 1 2 5).ticket_index, (Share.mk 1 1 2 5).x, (Share.mk 1 1 2 5).y))
          = emptyLedger) ∧
     (Outcome.Accepted = .Accepted →
        emptyLedger (to_felt_hex (((Share.mk 1 1 2 5).nullifier : ℕ) : ℤ)) = none ∧
        Function.update emptyLedger (to_felt_hex (((Share.mk 1 1 2 5).nullifier : ℕ) : ℤ))
          (some ((Share.mk 1 1 2 5).ticket_index, (Share.mk 1 1 2 5).x, (Share.mk 1 1 2 5).y))
          = Function.update emptyLedger (to_felt_hex (((Share.mk 1 1 2 5).nullifier : ℕ) : ℤ))
              (some ((Share.mk 1 1 2 5).ticket_index, (Share.mk 1 1 2 5).x, (Share.mk 1 1 2 5).y)) ∧
        ∀ k, k ≠ to_felt_hex (((Share.mk 1 1 2 5).nullifier : ℕ) : ℤ) →
          Function.update emptyLedger (to_felt_hex (((Share.mk 1 1 2 5).nullifier : ℕ) : ℤ))
            (some ((Share.mk 1 1 2 5).ticket_index, (Share.mk 1 1 2 5).x, (Share.mk 1 1 2 5).y)) k
            = emptyLedger k)) :=
  ⟨rfl, claim_C4 emptyLedger (Share.mk 1 1 2 5) .Accepted _ rfl⟩

/-- C8: the arithmetic error branches are unreachable from `adjudicate`: for a
normalized share against a ledger whose stored `x` components are normalized,
`adjudicate` always returns an outcome, never an exception. -/
theorem claim_C8 (l : Ledger) (s : Share) (hsx : s.x < P)
    (hl : ∀ k pt px py, l k = some (pt, px, py) → px < P) :
    ∃ (o : Outcome) (l' : Ledger), adjudicate l s = .ok (o, l') := by
  cases hkey : l (to_felt_hex (s.nullifier : ℤ)) with
  | none => exact ⟨_, _, adjudicate_none hkey⟩
  | some e =>
    obtain ⟨pt, px, py⟩ := e
    by_cases hpt : pt ≠ s.ticket_index
    · exact ⟨_, _, adjudicate_mismatch hkey hpt⟩
    · have hpt' : pt = s.ticket_index := not_not.mp hpt
      by_cases hx : px = s.x
      · by_cases hy : py = s.y
        · exact ⟨_, _, adjudicate_replay hkey hpt' hx hy⟩
        · exact ⟨_, _, adjudicate_inconsistent hkey hpt' hx hy⟩
      · obtain ⟨r, _, _, heq⟩ :=
          adjudicate_slash hkey hpt' hx (hl _ _ _ _ hkey) hsx
        exact ⟨_, _, heq⟩

/-- C8 witness: concrete slashing configuration (stored `(7, 1, 2)` under the
share's nullifier key, incoming share `(5, 7, 3, 4)`). -/
theorem claim_C8_witness :
    (Share.mk 5 7 3 4).x < P ∧
    (∃ (o : Outcome) (l' : Ledger),
      adjudicate (Function.update emptyLedger "0x5" (some (7, 1, 2)))
        (Share.mk 5 7 3 4) = .ok (o, l')) :=
  ⟨by decide,
    claim_C8 (Function.update emptyLedger "0x5" (some (7, 1, 2))) (Share.mk 5 7 3 4)
      (by decide)
      (by
        intro k pt px py h
        by_cases hk : k = "0x5"
        · subst hk
          rw [Function.update_same] at h
          simp only [Option.some.injEq, Prod.mk.injEq] at h
          obtain ⟨h1, h2, h3⟩ := h
          rw [← h2]
          decide
        · rw [Function.update_noteq hk] at h
          exact absurd h (by simp [emptyLedger]))⟩

/-- C5: a failed proof verification short-circuits the request with a
verification-failure response and an unchanged ledger, before `adjudicate`
runs; a later resubmission of the same share with a passing proof is a fresh
first-time submission and is `Accepted`. -/
theorem claim_C5 (l : Ledger) (raw : RawDict) (s : Share)
    (hp : parse_share raw = .ok s) :
    handle_submit false l raw true = (.verifyFailed, l) ∧
    (l (to_felt_hex (s.nullifier : ℤ)) = none →
      handle_submit true l raw true =
        (.adjudicated .Accepted,
         Function.update l (to_felt_hex (s.nullifier : ℤ))
           (some (s.ticket_index, s.x, s.y)))) := by
  constructor
  · simp only [handle_submit]
    rw [hp]
    rfl
  · intro hkey
    simp only [handle_submit]
    rw [hp]
    simp only [Bool.not_true, Bool.false_eq_true, if_false]
    rw [adjudicate_none hkey]

/-- C5 witness: concrete share `(1, 1, 2, 5)` against the empty ledger. -/
theorem claim_C5_witness :
    parse_share [("nullifier", 1), ("ticket_index", 1), ("x", 2), ("y", 5)]
      = .ok (Share.mk 1 1 2 5) ∧
    (handle_submit false emptyLedger
        [("nullifier", 1), ("ticket_index", 1), ("x", 2), ("y", 5)] true
      = (.verifyFailed, emptyLedger) ∧
    (emptyLedger (to_felt_hex (((Share.mk 1 1 2 5).nullifier : ℕ) : ℤ)) = none →
      handle_submit true emptyLedger
          [("nullifier", 1), ("ticket_index", 1), ("x", 2), ("y", 5)] true
        = (.adjudicated .Accepted,
           Function.update emptyLedger
             (to_felt_hex (((Share.mk 1 1 2 5).nullifier : ℕ) : ℤ))
             (some ((Share.mk 1 1 2 5).ticket_index, (Share.mk 1 1 2 5).x,
                    (Share.mk 1 1 2 5).y))))) :=
  ⟨rfl, claim_C5 emptyLedger
    [("nullifier", 1), ("ticket_index", 1), ("x", 2), ("y", 5)]
    (Share.mk 1 1 2 5) rfl⟩

/-- Concrete ledger holding the first share `(ticket 7, x 1, y 2)` under
nullifier key `0x5`, used to evaluate the over-spending branch. -/
def ledgerC6 : Ledger := Function.update emptyLedger "0x5" (some (7, 1, 2))

/-- Concrete conflicting second share for the same nullifier and ticket. -/
def shareC6 : Share := Share.mk 5 7 3 4

/-- Projection of the shares list of a `Slashed` adjudication result. -/
def sharesOf : Except String (Outcome × Ledger) → Option (List (String × String))
  | .ok (.Slashed p, _) => some p.shares
  | _ => none

/-- C6 counterexample: in the over-spending branch the code calls
`slash_payload(share, second_share)` with the newly submitted share first, so
the payload's shares list is the new share followed by the stored one — not
the stored share followed by the new one as claimed. -/
theorem claim_C6_counterexample :
    sharesOf (adjudicate ledgerC6 shareC6) = some [("0x3", "0x4"), ("0x1", "0x2")] ∧
    sharesOf (adjudicate ledgerC6 shareC6) ≠ some [("0x1", "0x2"), ("0x3", "0x4")] := by
  constructor
  · rfl
  · decide

/-- C6 amended: in the over-spending branch the `Slashed` payload is built by
calling `recover_identity_secret` on `(new.x, new.y, prev.x, prev.y)` and its
shares list contains the newly submitted share followed by the previously
stored first share, in that order. -/
theorem claim_C6_amended (l : Ledger) (s : Share) (pt px py : ℕ)
    (hkey : l (to_felt_hex (s.nullifier : ℤ)) = some (pt, px, py))
    (hpt : pt = s.ticket_index) (hpx : px ≠ s.x) (hpxP : px < P) (hsxP : s.x < P) :
    ∃ r : ℕ, recover_identity_secret (s.x : ℤ) (s.y : ℤ) (px : ℤ) (py : ℤ) = .ok r ∧
      adjudicate l s = .ok (.Slashed
        { nullifier := to_felt_hex (s.nullifier : ℤ)
        , ticket_index := to_felt_hex (s.ticket_index : ℤ)
        , recovered_identity_secret := to_felt_hex (r : ℤ)
        , shares := [(to_felt_hex (s.x : ℤ), to_felt_hex (s.y : ℤ)),
                     (to_felt_hex (px : ℤ), to_felt_hex (py : ℤ))] }, l) := by
  obtain ⟨r, hrec, _, heq⟩ := adjudicate_slash hkey hpt hpx hpxP hsxP
  exact ⟨r, hrec, heq⟩

/-- C6 witness: the concrete over-spending configuration. -/
theorem claim_C6_amended_witness :
    ledgerC6 (to_felt_hex ((shareC6.nullifier : ℕ) : ℤ)) = some (7, 1, 2) ∧
    (7 : ℕ) = shareC6.ticket_index ∧ (1 : ℕ) ≠ shareC6.x ∧ (1 : ℕ) < P ∧ shareC6.x < P ∧
    (∃ r : ℕ,
      recover_identity_secret (shareC6.x : ℤ) (shareC6.y : ℤ) ((1 : ℕ) : ℤ) ((2 : ℕ) : ℤ)
        = .ok r ∧
      adjudicate ledgerC6 shareC6 = .ok (.Slashed
        { nullifier := to_felt_hex ((shareC6.nullifier : ℕ) : ℤ)
        , ticket_index := to_felt_hex ((shareC6.ticket_index : ℕ) : ℤ)
        , recovered_identity_secret := to_felt_hex ((r : ℕ) : ℤ)
        , shares := [(to_felt_hex ((shareC6.x : ℕ) : ℤ), to_felt_hex ((shareC6.y : ℕ) : ℤ)),
                     (to_felt_hex ((1 : ℕ) : ℤ), to_felt_hex ((2 : ℕ) : ℤ))] }, ledgerC6)) :=
  ⟨by decide, rfl, by decide, by decide, by decide,
    claim_C6_amended ledgerC6 shareC6 7 1 2 (by decide) rfl (by decide) (by decide) (by decide)⟩

/-- C9: a request body missing required keys fails parsing with a message
listing exactly the missing keys, sorted, comma-joined, and leaves the ledger
untouched in the submission pipeline. -/
theorem claim_C9 (raw : RawDict) (h : missingKeys raw ≠ []) :
    parse_share raw = .error
      ("missing share keys: " ++ String.intercalate ", " (missingKeys raw)) ∧
    (∀ k, k ∈ missingKeys raw ↔ k ∈ requiredKeys ∧ hasKey raw k = false) ∧
    List.Pairwise (fun a b => a < b) (missingKeys raw) ∧
    (∀ (verified : Bool) (l : Ledger) (hasProof : Bool),
      handle_submit verified l raw hasProof =
        (.invalidShare ("invalid share: " ++
          ("missing share keys: " ++ String.intercalate ", " (missingKeys raw))), l)) := by
  have hparse : parse_share raw = .error
      ("missing share keys: " ++ String.intercalate ", " (missingKeys raw)) := by
    simp only [parse_share]
    rw [if_neg h]
  refine ⟨hparse, ?_, ?_, ?_⟩
  · intro k
    simp only [missingKeys, List.mem_filter, Bool.not_eq_true']
  · have h1 : ("nullifier" : String) < "ticket_index" := String.lt_iff_toList_lt.mpr (by decide)
    have h2 : ("ticket_index" : String) < "x" := String.lt_iff_toList_lt.mpr (by decide)
    have h3 : ("x" : String) < "y" := String.lt_iff_toList_lt.mpr (by decide)
    have hreq : List.Pairwise (fun a b : String => a < b) requiredKeys :=
      List.chain'_iff_pairwise.mp
        (List.Chain.cons h1 (List.Chain.cons h2 (List.Chain.cons h3 List.Chain.nil)))
    exact hreq.sublist (List.filter_sublist requiredKeys)
  · intro verified l hasProof
    simp only [handle_submit]
    rw [hparse]

/-- C9 witness: a body holding only `x`; the missing keys are
`nullifier, ticket_index, y` in sorted order. -/
theorem claim_C9_witness :
    missingKeys [("x", 1)] ≠ [] ∧
    (parse_share [("x", 1)] = .error
      ("missing share keys: " ++ String.intercalate ", " (missingKeys [("x", 1)])) ∧
    (∀ k, k ∈ missingKeys [("x", 1)] ↔ k ∈ requiredKeys ∧ hasKey [("x", 1)] k = false) ∧
    List.Pairwise (fun a b => a < b) (missingKeys [("x", 1)]) ∧
    (∀ (verified : Bool) (l : Ledger) (hasProof : Bool),
      handle_submit verified l [("x", 1)] hasProof =
        (.invalidShare ("invalid share: " ++
          ("missing share keys: " ++ String.intercalate ", " (missingKeys [("x", 1)]))), l))) :=
  ⟨by decide, claim_C9 [("x", 1)] (by decide)⟩

/-- C10: every value returned by `to_felt`, `field_inv`,
`recover_identity_secret` and `derive_a1` lies in `[0, P)`; `to_felt` maps
negative integers into range (`to_felt (-1) = P - 1`); every parsed share
field is reduced; and `adjudicate` preserves canonical reduction of all
ledger entry components. -/
theorem claim_C10 :
    (∀ v : ℤ, to_felt v < P) ∧
    to_felt (-1) = P - 1 ∧
    (∀ (v : ℤ) (r : ℕ), field_inv v = .ok r → r < P) ∧
    (∀ (x1 y1 x2 y2 : ℤ) (r : ℕ), recover_identity_secret x1 y1 x2 y2 = .ok r → r < P) ∧
    (∀ (a x y : ℤ) (r : ℕ), derive_a1 a x y = .ok r → r < P) ∧
    (∀ (raw : RawDict) (s : Share), parse_share raw = .ok s →
      s.nullifier < P ∧ s.ticket_index < P ∧ s.x < P ∧ s.y < P) ∧
    (∀ (l : Ledger) (s : Share) (o : Outcome) (l' : Ledger),
      adjudicate l s = .ok (o, l') →
      (∀ k e, l k = some e → e.1 < P ∧ e.2.1 < P ∧ e.2.2 < P) →
      s.ticket_index < P → s.x < P → s.y < P →
      ∀ k e, l' k = some e → e.1 < P ∧ e.2.1 < P ∧ e.2.2 < P) := by
  refine ⟨to_felt_lt, by decide, ?_, ?_, ?_, ?_, ?_⟩
  · intro v r h
    simp only [field_inv] at h
    split at h
    · exact absurd h (by simp)
    · simp only [Except.ok.injEq] at h
      rw [← h]
      exact Nat.mod_lt _ P_pos
  · intro x1 y1 x2 y2 r h
    simp only [recover_identity_secret] at h
    split at h
    · exact absurd h (by simp)
    · split at h
      · exact absurd h (by simp)
      · simp only [Except.ok.injEq] at h
        rw [← h]
        exact Nat.mod_lt _ P_pos
  · intro a x y r h
    simp only [derive_a1] at h
    split at h
    · exact absurd h (by simp)
    · split at h
      · exact absurd h (by simp)
      · simp only [Except.ok.injEq] at h
        rw [← h]
        exact to_felt_lt _
  · intro raw s h
    simp only [parse_share] at h
    split at h
    · simp only [Except.ok.injEq] at h
      rw [← h]
      exact ⟨to_felt_lt _, to_felt_lt _, to_felt_lt _, to_felt_lt _⟩
    · exact absurd h (by simp)
  · intro l s o l' h hnorm ht hx hy
    obtain ⟨h1, h2⟩ := adjudicate_frame l s o l' h
    by_cases hA : o = .Accepted
    · obtain ⟨hkey, hupd⟩ := h2 hA
      intro k e hk
      rw [hupd] at hk
      by_cases hke : k = to_felt_hex (s.nullifier : ℤ)
      · subst hke
        rw [Function.update_same] at hk
        simp only [Option.some.injEq] at hk
        rw [← hk]
        exact ⟨ht, hx, hy⟩
      · rw [Function.update_noteq hke] at hk
        exact hnorm k e hk
    · rw [h1 hA]
      exact hnorm

/-- C10 witness: exercising the conjuncts with concrete inputs: `to_felt (-5)`
and the parsed concrete share `(1, 1, 2, 5)`. -/
theorem claim_C10_witness :
    to_felt (-5) < P ∧
    ((Share.mk 1 1 2 5).nullifier < P ∧ (Share.mk 1 1 2 5).ticket_index < P ∧
      (Share.mk 1 1 2 5).x < P ∧ (Share.mk 1 1 2 5).y < P) :=
  ⟨claim_C10.1 (-5), claim_C10.2.2.2.2.2.1
    [("nullifier", 1), ("ticket_index", 1), ("x", 2), ("y", 5)] (Share.mk 1 1 2 5) rfl⟩

example : to_felt 5 = 5 := by decide
example : to_felt (-1) = P - 1 := by decide
example : to_felt_hex 5 = "0x5" := by decide
example : to_felt_hex 255 = "0xff" := by decide
example : to_felt_hex 0 = "0x0" := by decide
example : missingKeys [("x", 1)] = ["nullifier", "ticket_index", "y"] := by decide
example : parse_share [("nullifier", 1), ("ticket_index", 1), ("x", 2), ("y", 5)]
    = .ok ⟨1, 1, 2, 5⟩ := rfl

end RLN
